import Mathlib

/-!
Verification development for the `file-inventory` scanner (`src/main.go`).

The program walks a directory tree with `filepath.Walk`, skips directories,
special files and entries with access errors, hashes every remaining regular
file with SHA-256 (one goroutine per file, gated by a semaphore of size
`workerCount`), and collects `FileInfo` records and processing errors through
two channels drained by dedicated collector goroutines.

The shallow embedding below models:
  - the filesystem seen by one scan as an inductive tree (`FSEntry`), each
    entry carrying the access/hash outcomes the OS would report for it;
  - `filepath.Walk` together with the walk callback of `main`
    (src/main.go:152-240) as a state-threading recursion (`walkEntry`);
  - `calculateSHA256` (src/main.go:50-72) including its handle discipline;
  - the per-file hashing goroutine body (src/main.go:200-237) as
    `processCandidate`;
  - SHA-256 itself and Go's `hex.EncodeToString`, executable on byte lists;
  - the concurrent fan-out/fan-in of candidates over `workerCount`
    goroutines as an order-preserving distribution relation (`Dispatch`).
-/

set_option maxRecDepth 100000

namespace FileInventory

/-- Kind of access error the OS reports for an entry during the walk:
`os.IsPermission` errors versus any other I/O error. -/
inductive AccessErr where
  | perm
  | other
deriving DecidableEq, Repr

/-- File-mode type bits tested by the walk callback (src/main.go:176-180).
`regular` stands for a plain file (no type bit set); `irregular` is any
other mode whose bits the callback does not test. Directories are a separate
constructor of `FSEntry`. -/
inductive FileMode where
  | regular
  | irregular
  | namedPipe
  | socket
  | device
  | charDevice
  | symlink
deriving DecidableEq, Repr

/-- The disjunction of mode-bit tests at src/main.go:176-180: named pipe,
socket, device, char device or symlink. -/
def isSpecialMode (m : FileMode) : Bool :=
  (m == .namedPipe) || (m == .socket) || (m == .device) ||
  (m == .charDevice) || (m == .symlink)

/-- Per-file data as one scan observes it: the mode bits and modification
time from the walk-time `os.FileInfo` snapshot, the byte content, and
whether `os.Open` / the reads performed by `io.Copy` succeed for this file
during the scan. `modTime` is kept in its already-formatted UTC textual
form, since no code under scrutiny inspects its structure. -/
structure FileData where
  mode : FileMode
  content : List Nat
  modTime : String
  openOk : Bool
  readOk : Bool
deriving DecidableEq, Repr

/-- A directory tree. `statErr` is the error `lstat` reports when the walk
discovers the entry (the callback then receives a nil `os.FileInfo`);
`readErr` on a directory is the error reported when `filepath.Walk` tries
to list its entries. -/
inductive FSEntry where
  | file (name : String) (statErr : Option AccessErr) (data : FileData)
  | dir (name : String) (statErr : Option AccessErr) (readErr : Option AccessErr)
      (entries : List FSEntry)

/-- Base name of an entry. -/
def FSEntry.name : FSEntry → String
  | .file n _ _ => n
  | .dir n _ _ _ => n

/-- Whether the entry is a directory (what `info.IsDir()` returns when the
walk could stat it). -/
def FSEntry.isDir : FSEntry → Bool
  | .file _ _ _ => false
  | .dir _ _ _ _ => true

/-- A work item handed to a hashing goroutine: the walk passes the full path
and the walk-time `os.FileInfo` into the goroutine (src/main.go:237); the
file's scan-time data is bundled so hashing needs no second filesystem
query in the model. -/
structure Candidate where
  path : String
  data : FileData
deriving DecidableEq, Repr

/-- State accumulated by the walk: candidates dispatched to goroutines (in
traversal order) and the paths of walk-access errors sent to `errChan` at
src/main.go:165. -/
structure WalkState where
  cands : List Candidate
  walkErrs : List String
deriving DecidableEq, Repr

/-- Value a `filepath.WalkFunc` invocation (or the recursive `walk` helper)
returns: nil, `filepath.SkipDir`, or any other error, which would abort the
walk. -/
inductive WRet where
  | ok
  | skipDir
  | abort
deriving DecidableEq, Repr

mutual

/-- `filepath.Walk`'s recursive `walk` helper specialised to the callback at
src/main.go:152-240, visiting the entry `e` whose full path is `path`.
The `statErr` branches model the callback invoked by the parent loop (or by
`Walk` itself at the root) after a failed `lstat`, with nil file info: a
permission error skips the entry silently (src/main.go:155-162, the
`info != nil && info.IsDir()` test fails since info is nil), any other error
is sent to `errChan` and the callback returns nil (src/main.go:164-166).
For a stattable directory, a failed directory listing reaches the callback
with the directory's info: a permission error returns `filepath.SkipDir`
(src/main.go:158-159), another error is reported and the walk of this
subtree ends with nil. A stattable directory otherwise returns nil at the
callback (src/main.go:170-171) and its children are visited. A stattable
file is skipped when a special-mode bit is set (src/main.go:176-191),
otherwise exactly one candidate goroutine is launched (src/main.go:194-237). -/
def walkEntry (path : String) (e : FSEntry) (st : WalkState) : WalkState × WRet :=
  match e with
  | .file _ (some .perm) _ => (st, .ok)
  | .file _ (some .other) _ => ({ st with walkErrs := st.walkErrs ++ [path] }, .ok)
  | .file _ none d =>
      if isSpecialMode d.mode then (st, .ok)
      else ({ st with cands := st.cands ++ [⟨path, d⟩] }, .ok)
  | .dir _ (some .perm) _ _ => (st, .ok)
  | .dir _ (some .other) _ _ => ({ st with walkErrs := st.walkErrs ++ [path] }, .ok)
  | .dir _ none (some .perm) _ => (st, .skipDir)
  | .dir _ none (some .other) _ => ({ st with walkErrs := st.walkErrs ++ [path] }, .ok)
  | .dir _ none none entries => walkChildren path entries st

/-- The child loop of `filepath.Walk`'s `walk` helper: each child is visited
at `filepath.Join(path, name)`; a child returning `filepath.SkipDir` stops
the remaining siblings only when the child is not a directory, and an
aborting error stops them unconditionally. -/
def walkChildren (path : String) (es : List FSEntry) (st : WalkState) :
    WalkState × WRet :=
  match es with
  | [] => (st, .ok)
  | c :: rest =>
      match walkEntry (path ++ "/" ++ c.name) c st with
      | (st', .abort) => (st', .abort)
      | (st', .skipDir) =>
          if c.isDir then walkChildren path rest st' else (st', .skipDir)
      | (st', .ok) => walkChildren path rest st'

end

/-- `filepath.Walk rootDir callback` as invoked at src/main.go:152: the walk
over the tree `t` rooted at path `root`, starting from the empty state.
`Walk` turns a root-level `filepath.SkipDir` into nil. -/
def runWalk (root : String) (t : FSEntry) : WalkState × WRet :=
  match walkEntry root t ⟨[], []⟩ with
  | (st, .skipDir) => (st, .ok)
  | (st, r) => (st, r)

/-! ## SHA-256 (`crypto/sha256`) and `hex.EncodeToString` -/

/-- Truncation to a 32-bit machine word. -/
def w32 (x : Nat) : Nat := x % 4294967296

/-- 32-bit right rotation (arguments below 2^32). -/
def rotr32 (n x : Nat) : Nat := w32 ((x >>> n) ||| (x <<< (32 - n)))

/-- SHA-256 Σ0. -/
def bigSigma0 (x : Nat) : Nat := (rotr32 2 x) ^^^ (rotr32 13 x) ^^^ (rotr32 22 x)

/-- SHA-256 Σ1. -/
def bigSigma1 (x : Nat) : Nat := (rotr32 6 x) ^^^ (rotr32 11 x) ^^^ (rotr32 25 x)

/-- SHA-256 σ0. -/
def smallSigma0 (x : Nat) : Nat := (rotr32 7 x) ^^^ (rotr32 18 x) ^^^ (x >>> 3)

/-- SHA-256 σ1. -/
def smallSigma1 (x : Nat) : Nat := (rotr32 17 x) ^^^ (rotr32 19 x) ^^^ (x >>> 10)

/-- SHA-256 Ch, with 32-bit complement. -/
def shaCh (x y z : Nat) : Nat := (x &&& y) ^^^ ((x ^^^ 4294967295) &&& z)

/-- SHA-256 Maj. -/
def shaMaj (x y z : Nat) : Nat := (x &&& y) ^^^ (x &&& z) ^^^ (y &&& z)

/-- The 64 SHA-256 round constants, in decimal. -/
def k256 : List Nat :=
  [1116352408, 1899447441, 3049323471, 3921009573, 961987163, 1508970993,
   2453635748, 2870763221, 3624381080, 310598401, 607225278, 1426881987,
   1925078388, 2162078206, 2614888103, 3248222580, 3835390401, 4022224774,
   264347078, 604807628, 770255983, 1249150122, 1555081692, 1996064986,
   2554220882, 2821834349, 2952996808, 3210313671, 3336571891, 3584528711,
   113926993, 338241895, 666307205, 773529912, 1294757372, 1396182291,
   1695183700, 1986661051, 2177026350, 2456956037, 2730485921, 2820302411,
   3259730800, 3345764771, 3516065817, 3600352804, 4094571909, 275423344,
   430227734, 506948616, 659060556, 883997877, 958139571, 1322822218,
   1537002063, 1747873779, 1955562222, 2024104815, 2227730452, 2361852424,
   2428436474, 2756734187, 3204031479, 3329325298]

/-- The eight 32-bit words of a SHA-256 state. -/
structure Hash8 where
  a : Nat
  b : Nat
  c : Nat
  d : Nat
  e : Nat
  f : Nat
  g : Nat
  h : Nat
deriving DecidableEq, Repr

/-- SHA-256 initial state, in decimal. -/
def sha256Init : Hash8 :=
  ⟨1779033703, 3144134277, 1013904242, 2773480762,
   1359893119, 2600822924, 528734635, 1541459225⟩

/-- Extend the 16-word message block by `n` further schedule words. -/
def scheduleAux (acc : List Nat) : Nat → List Nat
  | 0 => acc
  | n + 1 =>
      scheduleAux
        (acc ++ [w32 (smallSigma1 (acc.getD (acc.length - 2) 0) +
                      acc.getD (acc.length - 7) 0 +
                      smallSigma0 (acc.getD (acc.length - 15) 0) +
                      acc.getD (acc.length - 16) 0)]) n

/-- One SHA-256 round. -/
def shaRound (st : Hash8) (k w : Nat) : Hash8 :=
  let t1 := w32 (st.h + bigSigma1 st.e + shaCh st.e st.f st.g + k + w)
  let t2 := w32 (bigSigma0 st.a + shaMaj st.a st.b st.c)
  ⟨w32 (t1 + t2), st.a, st.b, st.c, w32 (st.d + t1), st.e, st.f, st.g⟩

/-- Compress one 16-word block into the running state. -/
def compressBlock (st : Hash8) (block : List Nat) : Hash8 :=
  let ws := scheduleAux block 48
  let r := (k256.zip ws).foldl (fun s p => shaRound s p.1 p.2) st
  ⟨w32 (st.a + r.a), w32 (st.b + r.b), w32 (st.c + r.c), w32 (st.d + r.d),
   w32 (st.e + r.e), w32 (st.f + r.f), w32 (st.g + r.g), w32 (st.h + r.h)⟩

/-- Compress a padded message, taken 16 words at a time. -/
def compressAll (st : Hash8) : List Nat → Hash8
  | w0 :: w1 :: w2 :: w3 :: w4 :: w5 :: w6 :: w7 ::
    w8 :: w9 :: w10 :: w11 :: w12 :: w13 :: w14 :: w15 :: rest =>
      compressAll
        (compressBlock st
          [w0, w1, w2, w3, w4, w5, w6, w7, w8, w9, w10, w11, w12, w13, w14, w15])
        rest
  | _ => st

/-- Big-endian byte decomposition of `x` into `n` bytes. -/
def toBytesBE : Nat → Nat → List Nat
  | 0, _ => []
  | n + 1, x => toBytesBE n (x / 256) ++ [x % 256]

/-- Group bytes into big-endian 32-bit words. -/
def bytesToWords : List Nat → List Nat
  | b0 :: b1 :: b2 :: b3 :: rest =>
      (b0 * 16777216 + b1 * 65536 + b2 * 256 + b3) :: bytesToWords rest
  | _ => []

/-- SHA-256 padding: a 0x80 byte, zeros to 56 mod 64, and the bit length as
eight big-endian bytes. -/
def padMessage (msg : List Nat) : List Nat :=
  msg ++ [0x80] ++ List.replicate ((119 - msg.length % 64) % 64) 0 ++
    toBytesBE 8 ((8 * msg.length) % 18446744073709551616)

/-- Serialise a state as 32 digest bytes. -/
def stateToBytes (st : Hash8) : List Nat :=
  toBytesBE 4 st.a ++ toBytesBE 4 st.b ++ toBytesBE 4 st.c ++ toBytesBE 4 st.d ++
  toBytesBE 4 st.e ++ toBytesBE 4 st.f ++ toBytesBE 4 st.g ++ toBytesBE 4 st.h

/-- SHA-256 of a byte sequence, as the 32 digest bytes (`hash.Sum(nil)` of a
`sha256.New()` hash fed the whole file, src/main.go:62-70). -/
def sha256Bytes (msg : List Nat) : List Nat :=
  stateToBytes (compressAll sha256Init (bytesToWords (padMessage msg)))

/-- The lowercase hexadecimal digits used by Go's `encoding/hex`. -/
def hexChars : List Char := "0123456789abcdef".data

/-- Digit character for a nibble. -/
def hexDigitChar (n : Nat) : Char := hexChars.getD (n % 16) '0'

/-- `hex.EncodeToString`: two lowercase hex digits per byte, high nibble
first. -/
def hexEncodeString (bs : List Nat) : String :=
  String.mk (bs.flatMap fun b => [hexDigitChar (b / 16), hexDigitChar (b % 16)])

/-! ## `calculateSHA256` (src/main.go:50-72) -/

/-- Error value returned by `calculateSHA256`. The function returns the
error of `os.Open` or of `io.Copy` unchanged; in Go both are `*os.PathError`
values whose `Op` field is `"open"` (set by `os.OpenFile`) respectively
`"read"` (set by `(*os.File).Read`, through which `io.Copy` reads). -/
structure HashError where
  op : String
deriving DecidableEq, Repr

/-- `calculateSHA256` with its handle events made explicit: besides the
returned `(string, error)` pair, the triple records whether the call
successfully opened the file and whether it closed the handle before
returning. Control flow mirrors src/main.go:50-72: a failed `os.Open`
returns the open error with no handle created (lines 51-54); afterwards the
deferred `file.Close()` (lines 55-60) runs on every return path, so a failed
`io.Copy` returns the read error with the handle closed (lines 66-68), and
otherwise the hex-encoded digest is returned with the handle closed
(lines 70-71). -/
def calculateSHA256Ev (f : FileData) : (Except HashError String) × Bool × Bool :=
  if f.openOk then
    if f.readOk then
      (.ok (hexEncodeString (sha256Bytes f.content)), true, true)
    else
      (.error ⟨"read"⟩, true, true)
  else
    (.error ⟨"open"⟩, false, false)

/-- The `(string, error)` result of `calculateSHA256`. -/
def calculateSHA256 (f : FileData) : Except HashError String :=
  (calculateSHA256Ev f).1

/-! ## The hashing goroutine (src/main.go:200-237) -/

/-- The `FileInfo` struct serialised to JSON (src/main.go:19-24). -/
structure FileInfo where
  Name : String
  Path : String
  ModifiedDate : String
  SHA256Hash : String
deriving DecidableEq, Repr

/-- A hash-phase processing error sent to `errChan` at src/main.go:211. -/
structure HashProcErr where
  path : String
  cause : HashError
deriving DecidableEq, Repr

/-- `filepath.Split`: scan backwards to the last path separator (on the
target OS, `'/'`); the directory part is everything up to and including
that separator, the file part the remainder. -/
def filepathSplit (p : String) : String × String :=
  let rev := p.data.reverse
  (String.mk ((rev.dropWhile (fun c => c != '/')).reverse),
   String.mk ((rev.takeWhile (fun c => c != '/')).reverse))

/-- The body of the per-file goroutine (src/main.go:200-237): hash the file;
on failure send a wrapped error to `errChan` (line 211), otherwise split the
path with `filepath.Split` (line 220) and send a `FileInfo` built from the
name, directory, walk-time modification time and digest to `resultsChan`
(lines 224-230). Exactly one of the two messages is sent per candidate. -/
def processCandidate (c : Candidate) : Except HashProcErr FileInfo :=
  match calculateSHA256 c.data with
  | .error e => .error ⟨c.path, e⟩
  | .ok hash =>
      let s := filepathSplit c.path
      .ok ⟨s.2, s.1, c.data.modTime, hash⟩

/-- The contents of the `files` slice: outcomes that reached `resultsChan`. -/
def outcomeRecords (outs : List (Except HashProcErr FileInfo)) : List FileInfo :=
  outs.filterMap fun o =>
    match o with
    | .ok r => some r
    | .error _ => none

/-- The hash-phase errors that reached `errChan`. -/
def outcomeErrors (outs : List (Except HashProcErr FileInfo)) : List HashProcErr :=
  outs.filterMap fun o =>
    match o with
    | .ok _ => none
    | .error e => some e

/-- The whole scan's observable result: collected records, hash-phase
errors, and walk-phase errors (the code funnels both error kinds into the
same `errChan`; they are kept apart here because they arise at distinct
program points, src/main.go:165 and src/main.go:211). -/
structure ScanResult where
  files : List FileInfo
  hashErrs : List HashProcErr
  walkErrs : List String
deriving DecidableEq, Repr

/-- The pipeline of `main`: walk the tree collecting candidates, hash every
candidate, collect records and errors. The candidate list is processed in
dispatch order here; `Dispatch` below accounts for the concurrent
interleavings. -/
def runPipeline (root : String) (t : FSEntry) : ScanResult :=
  let st := (runWalk root t).1
  let outs := st.cands.map processCandidate
  ⟨outcomeRecords outs, outcomeErrors outs, st.walkErrs⟩

/-! ## Concurrent dispatch

`Dispatch xs ss` holds when the work items `xs`, in their dispatch order,
are distributed over the per-worker streams in `ss`: each item goes to
exactly one stream, and each stream receives its items in dispatch order.
Read in the other direction, `Dispatch out ss` holds when `out` is an
order-preserving interleaving of the streams `ss` — the possible receive
orders of a channel with the streams as its concurrent senders. -/

/-- Order-preserving distribution of a list over a list of streams. -/
inductive Dispatch : List α → List (List α) → Prop where
  | nil (ss : List (List α)) : (∀ s ∈ ss, s = []) → Dispatch [] ss
  | cons (x : α) (xs : List α) (s : List α) (pre post : List (List α)) :
      Dispatch xs (pre ++ s :: post) →
      Dispatch (x :: xs) (pre ++ (x :: s) :: post)

/-- A possible outcome sequence of the scan run with `n` workers: the
candidates are distributed over `n` workers, each worker hashes its
candidates in order, and the collector sees some interleaving of the
workers' result streams. -/
def ParRun (cands : List Candidate) (n : Nat)
    (out : List (Except HashProcErr FileInfo)) : Prop :=
  ∃ ss : List (List Candidate),
    ss.length = n ∧ Dispatch cands ss ∧
    Dispatch out (ss.map (List.map processCandidate))

/-! ## The Skip Rule Set and exclusion-aware classifier

`src/main.go` contains no excluded-name or excluded-prefix configuration:
its walk callback skips only directories, special files and entries with
access errors. The Skip Rule Set and the exclusion matching of the Path
Classifier exist only in the specification, so they are modelled here from
its words and verified as a standalone walker. Paths are component lists,
so "the path begins with a configured prefix" is list-prefix and "within an
excluded directory's subtree" is path extension. -/

namespace SpecModel

/-- Modelled from the spec: the process-wide, read-only Skip Rule Set of
spec §3 — "{excluded base names, excluded path prefixes}" — which is absent
from src/main.go. -/
structure SkipRules where
  names : List String
  prefixes : List (List String)

/-- A directory tree for the spec-modelled walker; `hashOk` tells whether
hashing the file would succeed. -/
inductive SEntry where
  | file (name : String) (hashOk : Bool)
  | dir (name : String) (entries : List SEntry)

/-- Modelled from the spec: the exclusion test of the Path Classifier,
spec §4.1 — "exact base-name membership in a configured set OR the path
beginning with any of a configured list of path prefixes". -/
def excludedAt (rules : SkipRules) (p : List String) (base : String) : Bool :=
  rules.names.contains base || rules.prefixes.any (fun pfx => pfx.isPrefixOf p)

mutual

/-- Modelled from the spec: the walker of §4.3 combined with the classifier
of §4.1 — an excluded file is `SkipEntry` (no work item), an excluded
directory is `PruneSubtree` (no descent), and otherwise a file yields one
candidate, tagged with whether its hash succeeds. -/
def specWalkEntry (rules : SkipRules) (parent : List String) (e : SEntry) :
    List (List String × Bool) :=
  match e with
  | .file n hOk =>
      if excludedAt rules (parent ++ [n]) n then [] else [(parent ++ [n], hOk)]
  | .dir n entries =>
      if excludedAt rules (parent ++ [n]) n then []
      else specWalkList rules (parent ++ [n]) entries

/-- Children of a non-excluded directory, visited in order. -/
def specWalkList (rules : SkipRules) (parent : List String) :
    List SEntry → List (List String × Bool)
  | [] => []
  | c :: rest =>
      specWalkEntry rules parent c ++ specWalkList rules parent rest

end

/-- Modelled from the spec: the output record set of the pipeline — the
paths of the candidates whose hash succeeded (§4.4: on success a FileRecord
is produced; on failure only a ProcessingError). -/
def specRecords (rules : SkipRules) (parent : List String) (e : SEntry) :
    List (List String) :=
  (specWalkEntry rules parent e).filterMap fun pb =>
    if pb.2 then some pb.1 else none

end SpecModel


/-! ## Sample inputs shared by the witnesses -/

/-- A readable empty regular file. -/
def sampleData : FileData := ⟨.regular, [], "2024-01-01T00:00:00Z", true, true⟩

/-- A regular file whose `os.Open` fails. -/
def sampleFailData : FileData := ⟨.regular, [], "2024-01-01T00:00:00Z", false, true⟩

/-- A directory with one readable file. -/
def sampleTree : FSEntry := .dir "r" none none [.file "a" none sampleData]

/-- A directory with two unopenable files. -/
def sampleFailTree : FSEntry :=
  .dir "r" none none [.file "a" none sampleFailData, .file "b" none sampleFailData]

/-- Skip rules with one excluded name and one excluded prefix. -/
def sampleRules : SpecModel.SkipRules := ⟨[".git"], [["proc"]]⟩

/-- A tree with a hashable file, an excluded subtree and a failing file. -/
def sampleSpecTree : SpecModel.SEntry :=
  .dir "d" [.file "a" true, .dir ".git" [.file "x" true], .file "b" false]

/-! ## Executable sanity checks of the embedding -/

example :
    runWalk "/r" (.dir "r" none none
      [.file "a" none ⟨.regular, [1], "t", true, true⟩,
       .file "p" none ⟨.namedPipe, [], "t", true, true⟩,
       .dir "d" none (some .perm) [.file "x" none ⟨.regular, [], "t", true, true⟩],
       .file "b" (some .other) ⟨.regular, [], "t", true, true⟩]) =
    (⟨[⟨"/r/a", ⟨.regular, [1], "t", true, true⟩⟩], ["/r/b"]⟩, .ok) := by
  decide

example :
    hexEncodeString (sha256Bytes []) =
    "e3b0c44298fc1c149afbf4c8996fb92427ae41e4649b934ca495991b7852b855" := by
  decide

example :
    hexEncodeString (sha256Bytes [0x61, 0x62, 0x63]) =
    "ba7816bf8f01cfea414140de5dae2223b00361a396177a9cb410ff61f20015ad" := by
  decide

example : filepathSplit "/a/b/c.txt" = ("/a/b/", "c.txt") := by decide

/-! ## Lemmas about dispatch and outcome collection -/

/-- Concatenating the per-worker streams recovers the dispatched items up to
permutation: every item is consumed exactly once across the workers. -/
theorem dispatch_flatten_perm {α : Type} {xs : List α} {ss : List (List α)}
    (h : Dispatch xs ss) : List.Perm ss.flatten xs := by
  induction h with
  | nil ss hss =>
      rw [List.flatten_eq_nil_iff.mpr hss]
  | cons x xs s pre post _ ih =>
      have e1 : (pre ++ (x :: s) :: post).flatten =
          pre.flatten ++ x :: (s ++ post.flatten) := by
        simp [List.flatten_append]
      have ih' : List.Perm (pre.flatten ++ (s ++ post.flatten)) xs := by
        have e2 : pre.flatten ++ (s ++ post.flatten) = (pre ++ s :: post).flatten := by
          simp [List.flatten_append]
        rw [e2]; exact ih
      rw [e1]
      exact List.perm_middle.trans (ih'.cons x)

/-- Any outcome order a parallel run can deliver is a permutation of the
sequential outcome list. -/
theorem parRun_perm {cands : List Candidate} {n : Nat}
    {out : List (Except HashProcErr FileInfo)} (h : ParRun cands n out) :
    List.Perm out (cands.map processCandidate) := by
  obtain ⟨ss, -, hd, hout⟩ := h
  have h1 := dispatch_flatten_perm hd
  have h2 := dispatch_flatten_perm hout
  have h3 : (ss.map (List.map processCandidate)).flatten =
      ss.flatten.map processCandidate := by
    rw [List.map_flatten]
  rw [h3] at h2
  exact h2.symm.trans (h1.map processCandidate)

/-- Each outcome lands in exactly one of the two collections. -/
theorem length_outcomes (outs : List (Except HashProcErr FileInfo)) :
    (outcomeRecords outs).length + (outcomeErrors outs).length = outs.length := by
  induction outs with
  | nil => rfl
  | cons o rest ih =>
      cases o with
      | ok r =>
          simp only [outcomeRecords, outcomeErrors, List.filterMap_cons] at *
          simpa using by omega
      | error e =>
          simp only [outcomeRecords, outcomeErrors, List.filterMap_cons] at *
          simpa using by omega

/-! ## Structural facts about the walk -/

mutual

/-- The walk of a single entry never aborts, and only appends candidates,
all of them non-special regular files. -/
theorem walkEntry_sound (path : String) (e : FSEntry) (st : WalkState) :
    (walkEntry path e st).2 ≠ WRet.abort ∧
    ∃ new, (walkEntry path e st).1.cands = st.cands ++ new ∧
      ∀ c ∈ new, isSpecialMode c.data.mode = false := by
  cases e with
  | file n se d =>
      match se with
      | some .perm => exact ⟨by simp [walkEntry], [], by simp [walkEntry], by simp⟩
      | some .other => exact ⟨by simp [walkEntry], [], by simp [walkEntry], by simp⟩
      | none =>
          by_cases hm : isSpecialMode d.mode
          · exact ⟨by simp [walkEntry, hm], [], by simp [walkEntry, hm], by simp⟩
          · refine ⟨by simp [walkEntry, hm], [⟨path, d⟩], by simp [walkEntry, hm], ?_⟩
            intro c hc
            simp only [List.mem_singleton] at hc
            subst hc
            simpa using hm
  | dir n se re entries =>
      match se, re with
      | some .perm, _ => exact ⟨by simp [walkEntry], [], by simp [walkEntry], by simp⟩
      | some .other, _ => exact ⟨by simp [walkEntry], [], by simp [walkEntry], by simp⟩
      | none, some .perm => exact ⟨by simp [walkEntry], [], by simp [walkEntry], by simp⟩
      | none, some .other => exact ⟨by simp [walkEntry], [], by simp [walkEntry], by simp⟩
      | none, none =>
          have h := walkChildren_sound path entries st
          exact ⟨by simpa [walkEntry] using h.1, by simpa [walkEntry] using h.2⟩

/-- The child loop never aborts and only appends non-special candidates. -/
theorem walkChildren_sound (path : String) (es : List FSEntry) (st : WalkState) :
    (walkChildren path es st).2 ≠ WRet.abort ∧
    ∃ new, (walkChildren path es st).1.cands = st.cands ++ new ∧
      ∀ c ∈ new, isSpecialMode c.data.mode = false := by
  match es with
  | [] => exact ⟨by simp [walkChildren], [], by simp [walkChildren], by simp⟩
  | c :: rest =>
      have h1 := walkEntry_sound (path ++ "/" ++ c.name) c st
      rcases hres : walkEntry (path ++ "/" ++ c.name) c st with ⟨st', r⟩
      rw [hres] at h1
      obtain ⟨habort, new1, hc1, hs1⟩ := h1
      cases r with
      | abort => exact absurd rfl habort
      | skipDir =>
          by_cases hdir : c.isDir
          · have h2 := walkChildren_sound path rest st'
            obtain ⟨habort2, new2, hc2, hs2⟩ := h2
            refine ⟨?_, new1 ++ new2, ?_, ?_⟩
            · simpa [walkChildren, hres, hdir] using habort2
            · simp only [walkChildren, hres, hdir, if_pos]
              rw [hc2, hc1, List.append_assoc]
            · intro x hx
              rcases List.mem_append.mp hx with hx | hx
              · exact hs1 x hx
              · exact hs2 x hx
          · refine ⟨by simp [walkChildren, hres, hdir], new1, ?_, hs1⟩
            simpa [walkChildren, hres, hdir] using hc1
      | ok =>
          have h2 := walkChildren_sound path rest st'
          obtain ⟨habort2, new2, hc2, hs2⟩ := h2
          refine ⟨?_, new1 ++ new2, ?_, ?_⟩
          · simpa [walkChildren, hres] using habort2
          · simp only [walkChildren, hres]
            rw [hc2, hc1, List.append_assoc]
          · intro x hx
            rcases List.mem_append.mp hx with hx | hx
            · exact hs1 x hx
            · exact hs2 x hx

end

namespace SpecModel

mutual

/-- Every candidate of the spec-modelled walker sits strictly below the
walk's start, matches no excluded prefix, and has no excluded name on any
path component below the start. -/
theorem specWalkEntry_sound (rules : SkipRules) (parent : List String)
    (e : SEntry) (pb : List String × Bool)
    (hpb : pb ∈ specWalkEntry rules parent e) :
    (∀ pfx ∈ rules.prefixes, pfx.isPrefixOf pb.1 = false) ∧
    ∃ rel, pb.1 = parent ++ rel ∧ rel ≠ [] ∧
      ∀ comp ∈ rel, rules.names.contains comp = false := by
  cases e with
  | file n hOk =>
      by_cases hex : excludedAt rules (parent ++ [n]) n
      · simp [specWalkEntry, hex] at hpb
      · simp only [specWalkEntry, hex, if_neg, Bool.false_eq_true,
          not_false_eq_true, List.mem_singleton] at hpb
        subst hpb
        simp only [excludedAt, Bool.or_eq_true, List.any_eq_true,
          not_or, not_exists, not_and] at hex
        refine ⟨?_, [n], rfl, by simp, ?_⟩
        · intro pfx hpfx
          by_contra hcon
          exact hex.2 pfx hpfx (by simpa using hcon)
        · intro comp hcomp
          simp only [List.mem_singleton] at hcomp
          subst hcomp
          simpa using hex.1
  | dir n entries =>
      by_cases hex : excludedAt rules (parent ++ [n]) n
      · simp [specWalkEntry, hex] at hpb
      · simp only [specWalkEntry, hex, if_neg, Bool.false_eq_true,
          not_false_eq_true] at hpb
        have h := specWalkList_sound rules (parent ++ [n]) entries pb hpb
        obtain ⟨hpfx, rel, hrel, -, hcomps⟩ := h
        simp only [excludedAt, Bool.or_eq_true, List.any_eq_true,
          not_or, not_exists, not_and] at hex
        refine ⟨hpfx, n :: rel, by simpa [List.append_assoc] using hrel, by simp, ?_⟩
        intro comp hcomp
        rcases List.mem_cons.mp hcomp with hcomp | hcomp
        · subst hcomp
          simpa using hex.1
        · exact hcomps comp hcomp

/-- List version of `specWalkEntry_sound`. -/
theorem specWalkList_sound (rules : SkipRules) (parent : List String)
    (es : List SEntry) (pb : List String × Bool)
    (hpb : pb ∈ specWalkList rules parent es) :
    (∀ pfx ∈ rules.prefixes, pfx.isPrefixOf pb.1 = false) ∧
    ∃ rel, pb.1 = parent ++ rel ∧ rel ≠ [] ∧
      ∀ comp ∈ rel, rules.names.contains comp = false := by
  match es with
  | [] => simp [specWalkList] at hpb
  | c :: rest =>
      rcases List.mem_append.mp (by simpa [specWalkList] using hpb) with h | h
      · exact specWalkEntry_sound rules parent c pb h
      · exact specWalkList_sound rules parent rest pb h

end

end SpecModel

/-! ## Facts about `filepath.Split` and hex encoding -/

/-- The first element surviving `dropWhile` falsifies the predicate. -/
theorem head?_dropWhile_false {α : Type} (p : α → Bool) (l : List α) {x : α}
    (h : (l.dropWhile p).head? = some x) : p x = false := by
  induction l with
  | nil => simp [List.dropWhile] at h
  | cons a l ih =>
      rw [List.dropWhile_cons] at h
      by_cases hpa : p a
      · rw [if_pos hpa] at h
        exact ih h
      · rw [if_neg hpa] at h
        simp only [List.head?_cons, Option.some.injEq] at h
        subst h
        simpa using hpa

/-- `filepath.Split` reassembles to the input, its directory part is empty
or ends with the separator, and its file part contains no separator. -/
theorem filepathSplit_spec (p : String) :
    (filepathSplit p).1 ++ (filepathSplit p).2 = p ∧
    ((filepathSplit p).1 = "" ∨ (filepathSplit p).1.data.getLast? = some '/') ∧
    (∀ ch ∈ (filepathSplit p).2.data, ch ≠ '/') := by
  refine ⟨?_, ?_, ?_⟩
  · show String.mk ((p.data.reverse.dropWhile (fun c => c != '/')).reverse ++
      (p.data.reverse.takeWhile (fun c => c != '/')).reverse) = p
    have h1 : (p.data.reverse.dropWhile (fun c => c != '/')).reverse ++
        (p.data.reverse.takeWhile (fun c => c != '/')).reverse =
        ((p.data.reverse.takeWhile (fun c => c != '/')) ++
         (p.data.reverse.dropWhile (fun c => c != '/'))).reverse := by
      rw [List.reverse_append]
    rw [h1, List.takeWhile_append_dropWhile, List.reverse_reverse]
  · rcases hh : (p.data.reverse.dropWhile (fun c => c != '/')).head? with - | c
    · left
      have : p.data.reverse.dropWhile (fun c => c != '/') = [] :=
        List.head?_eq_none_iff.mp hh
      show String.mk ((p.data.reverse.dropWhile (fun c => c != '/')).reverse) = ""
      rw [this]
      rfl
    · right
      have hc : (c != '/') = false :=
        head?_dropWhile_false (fun ch => ch != '/') p.data.reverse hh
      have hc' : c = '/' := by simpa using hc
      show ((p.data.reverse.dropWhile (fun c => c != '/')).reverse).getLast? = some '/'
      rw [List.getLast?_reverse, hh, hc']
  · intro ch hch
    have hch' : ch ∈ p.data.reverse.takeWhile (fun c => c != '/') := by
      simpa [filepathSplit] using List.mem_reverse.mp (by simpa [filepathSplit] using hch)
    have := List.mem_takeWhile_imp hch'
    simpa using this

/-- Every nibble is encoded by a character of the hex alphabet. -/
theorem hexDigitChar_mem (n : Nat) : hexDigitChar n ∈ hexChars := by
  have h16 : n % 16 < 16 := Nat.mod_lt _ (by decide)
  have hall : ∀ m, m < 16 → hexChars.getD m '0' ∈ hexChars := by decide
  simpa [hexDigitChar] using hall (n % 16) h16

/-- Length of the flat list of hex digit pairs. -/
theorem length_hexPairs (bs : List Nat) :
    (bs.flatMap fun b => [hexDigitChar (b / 16), hexDigitChar (b % 16)]).length =
      2 * bs.length := by
  induction bs with
  | nil => rfl
  | cons b rest ih =>
      rw [List.flatMap_cons]
      simp only [List.length_append, List.length_cons, ih, List.length_nil]
      omega

/-- Every character of the flat list of hex digit pairs is a hex digit. -/
theorem mem_hexPairs (bs : List Nat) :
    ∀ ch ∈ (bs.flatMap fun b => [hexDigitChar (b / 16), hexDigitChar (b % 16)]),
      ch ∈ hexChars := by
  induction bs with
  | nil => simp
  | cons b rest ih =>
      intro ch hch
      rw [List.flatMap_cons] at hch
      rcases List.mem_append.mp hch with hch | hch
      · rcases List.mem_cons.mp hch with rfl | hch
        · exact hexDigitChar_mem _
        · rcases List.mem_cons.mp hch with rfl | hch
          · exact hexDigitChar_mem _
          · simp at hch
      · exact ih ch hch

/-- `toBytesBE n x` has exactly `n` bytes. -/
theorem length_toBytesBE (n : Nat) : ∀ x, (toBytesBE n x).length = n := by
  induction n with
  | zero => intro x; rfl
  | succ n ih =>
      intro x
      rw [toBytesBE]
      simp [ih]

/-- A SHA-256 digest is 32 bytes. -/
theorem length_sha256Bytes (msg : List Nat) : (sha256Bytes msg).length = 32 := by
  rw [sha256Bytes, stateToBytes]
  simp [length_toBytesBE]

/-- Hex encoding of a digest: 64 characters, all lowercase hex digits. -/
theorem hexEncode_sha256_spec (msg : List Nat) :
    (hexEncodeString (sha256Bytes msg)).length = 64 ∧
    ∀ ch ∈ (hexEncodeString (sha256Bytes msg)).data, ch ∈ hexChars := by
  constructor
  · show ((sha256Bytes msg).flatMap fun b =>
      [hexDigitChar (b / 16), hexDigitChar (b % 16)]).length = 64
    rw [length_hexPairs, length_sha256Bytes]
  · intro ch hch
    exact mem_hexPairs _ ch hch

/-- A successful `calculateSHA256` returns the hex-encoded digest of the
file's bytes. -/
theorem calculateSHA256_ok {f : FileData} {s : String}
    (h : calculateSHA256 f = .ok s) :
    s = hexEncodeString (sha256Bytes f.content) := by
  unfold calculateSHA256 calculateSHA256Ev at h
  by_cases h1 : f.openOk <;> by_cases h2 : f.readOk <;>
    simp [h1, h2] at h
  exact h.symm

/-- Every collected record comes from some walked candidate whose hash
succeeded. -/
theorem mem_files_processed {root : String} {t : FSEntry} {r : FileInfo}
    (h : r ∈ (runPipeline root t).files) :
    ∃ c, c ∈ (runWalk root t).1.cands ∧ processCandidate c = .ok r := by
  simp only [runPipeline, outcomeRecords] at h
  obtain ⟨o, ho, hor⟩ := List.mem_filterMap.mp h
  obtain ⟨c, hc, rfl⟩ := List.mem_map.mp ho
  refine ⟨c, hc, ?_⟩
  rcases hpc : processCandidate c with e | v <;> rw [hpc] at hor
  · simp at hor
  · have h2 : v = r := by simpa using hor
    rw [h2]

/-! ## The claims -/

/-- C1: for every directory tree scanned, the number of FileRecords
collected plus the number of hash-phase ProcessingErrors counted equals the
number of regular, non-excluded files discovered by the walk — the
candidates the walk callback launched a hashing goroutine for, which by
`walkEntry_sound` are exactly the discovered regular non-special files. -/
theorem claim_C1 (root : String) (t : FSEntry) :
    (runPipeline root t).files.length + (runPipeline root t).hashErrs.length =
      ((runWalk root t).1.cands).length := by
  show (outcomeRecords (((runWalk root t).1.cands).map processCandidate)).length +
      (outcomeErrors (((runWalk root t).1.cands).map processCandidate)).length = _
  rw [length_outcomes, List.length_map]

/-- C2: every Candidate produced by the Walker and distributed over the
worker pool is consumed by exactly one worker (concatenating the per-worker
streams recovers the candidate list up to permutation), and each candidate
yields exactly one of a FileRecord or a ProcessingError — never zero
outcomes and never both. -/
theorem claim_C2 (cands : List Candidate) (ss : List (List Candidate))
    (h : Dispatch cands ss) :
    List.Perm ss.flatten cands ∧
    ∀ c ∈ cands,
      (∃ r, processCandidate c = .ok r ∧ ¬∃ e, processCandidate c = .error e) ∨
      (∃ e, processCandidate c = .error e ∧ ¬∃ r, processCandidate c = .ok r) := by
  refine ⟨dispatch_flatten_perm h, ?_⟩
  intro c _
  rcases hpc : processCandidate c with e | r
  · right
    exact ⟨e, rfl, by simp⟩
  · left
    exact ⟨r, rfl, by simp⟩

/-- C2 witness: one candidate dispatched to one worker. -/
theorem claim_C2_witness :
    Dispatch ([⟨"/r/a", sampleFailData⟩] : List Candidate)
      [[⟨"/r/a", sampleFailData⟩]] ∧
    (List.Perm ([[(⟨"/r/a", sampleFailData⟩ : Candidate)]] : List (List Candidate)).flatten
        [⟨"/r/a", sampleFailData⟩] ∧
      ∀ c ∈ ([⟨"/r/a", sampleFailData⟩] : List Candidate),
        (∃ r, processCandidate c = .ok r ∧ ¬∃ e, processCandidate c = .error e) ∨
        (∃ e, processCandidate c = .error e ∧ ¬∃ r, processCandidate c = .ok r)) := by
  have hd : Dispatch ([⟨"/r/a", sampleFailData⟩] : List Candidate)
      [[⟨"/r/a", sampleFailData⟩]] :=
    Dispatch.cons _ _ [] [] [] (Dispatch.nil _ (by simp))
  exact ⟨hd, claim_C2 _ _ hd⟩

/-- C3: in the spec-modelled exclusion walker (the Skip Rule Set is absent
from src/main.go), no output record's path matches an excluded prefix, and
every component of its path below the walk's start — in particular each
ancestor directory chosen during descent — avoids the excluded-name set, so
nothing inside an excluded directory's subtree ever appears. -/
theorem claim_C3 (rules : SpecModel.SkipRules) (parent : List String)
    (t : SpecModel.SEntry) (p : List String)
    (hp : p ∈ SpecModel.specRecords rules parent t) :
    (∀ pfx ∈ rules.prefixes, pfx.isPrefixOf p = false) ∧
    ∃ rel, p = parent ++ rel ∧ rel ≠ [] ∧
      ∀ comp ∈ rel, rules.names.contains comp = false := by
  have hp' : (p, true) ∈ SpecModel.specWalkEntry rules parent t := by
    simpa [SpecModel.specRecords] using hp
  exact SpecModel.specWalkEntry_sound rules parent t (p, true) hp'

/-- C3 witness: only the non-excluded, hashable file is recorded. -/
theorem claim_C3_witness :
    (["root", "d", "a"] ∈ SpecModel.specRecords sampleRules ["root"] sampleSpecTree) ∧
    ((∀ pfx ∈ sampleRules.prefixes, pfx.isPrefixOf ["root", "d", "a"] = false) ∧
      ∃ rel, ["root", "d", "a"] = ["root"] ++ rel ∧ rel ≠ [] ∧
        ∀ comp ∈ rel, sampleRules.names.contains comp = false) :=
  ⟨by decide, claim_C3 sampleRules ["root"] sampleSpecTree ["root", "d", "a"] (by decide)⟩

/-- C5: a permission error on a directory prunes its subtree and reports
nothing — whether the directory listing failed (`SkipDir`, swallowed by the
parent loop for directories) or the directory's own `lstat` failed (the
callback sees nil info and returns nil, and no descent is possible); a
permission error on a single file skips only that file (its siblings are
still walked from the same state); any other access error — on a file's
`lstat`, a directory's `lstat`, or a directory's listing — is recorded as
a ProcessingError while the walk moves on to the siblings; and the walk
never returns an aborting error. -/
theorem claim_C5 :
    (∀ (path n : String) (es : List FSEntry) (st : WalkState),
        walkEntry path (.dir n none (some .perm) es) st = (st, .skipDir)) ∧
    (∀ (path n : String) (es : List FSEntry) (rest : List FSEntry) (st : WalkState),
        walkChildren path (.dir n none (some .perm) es :: rest) st =
          walkChildren path rest st) ∧
    (∀ (path n : String) (re : Option AccessErr) (es : List FSEntry) (st : WalkState),
        walkEntry path (.dir n (some .perm) re es) st = (st, .ok)) ∧
    (∀ (path n : String) (re : Option AccessErr) (es : List FSEntry)
        (rest : List FSEntry) (st : WalkState),
        walkChildren path (.dir n (some .perm) re es :: rest) st =
          walkChildren path rest st) ∧
    (∀ (path n : String) (d : FileData) (st : WalkState),
        walkEntry path (.file n (some .perm) d) st = (st, .ok)) ∧
    (∀ (path n : String) (d : FileData) (rest : List FSEntry) (st : WalkState),
        walkChildren path (.file n (some .perm) d :: rest) st =
          walkChildren path rest st) ∧
    (∀ (path n : String) (d : FileData) (st : WalkState),
        walkEntry path (.file n (some .other) d) st =
          ({ st with walkErrs := st.walkErrs ++ [path] }, .ok)) ∧
    (∀ (path n : String) (d : FileData) (rest : List FSEntry) (st : WalkState),
        walkChildren path (.file n (some .other) d :: rest) st =
          walkChildren path rest
            { st with walkErrs := st.walkErrs ++ [path ++ "/" ++ n] }) ∧
    (∀ (path n : String) (re : Option AccessErr) (es : List FSEntry) (st : WalkState),
        walkEntry path (.dir n (some .other) re es) st =
          ({ st with walkErrs := st.walkErrs ++ [path] }, .ok)) ∧
    (∀ (path n : String) (re : Option AccessErr) (es : List FSEntry)
        (rest : List FSEntry) (st : WalkState),
        walkChildren path (.dir n (some .other) re es :: rest) st =
          walkChildren path rest
            { st with walkErrs := st.walkErrs ++ [path ++ "/" ++ n] }) ∧
    (∀ (path n : String) (es : List FSEntry) (st : WalkState),
        walkEntry path (.dir n none (some .other) es) st =
          ({ st with walkErrs := st.walkErrs ++ [path] }, .ok)) ∧
    (∀ (path n : String) (es : List FSEntry) (rest : List FSEntry) (st : WalkState),
        walkChildren path (.dir n none (some .other) es :: rest) st =
          walkChildren path rest
            { st with walkErrs := st.walkErrs ++ [path ++ "/" ++ n] }) ∧
    (∀ (path : String) (e : FSEntry) (st : WalkState),
        (walkEntry path e st).2 ≠ WRet.abort) := by
  refine ⟨?_, ?_, ?_, ?_, ?_, ?_, ?_, ?_, ?_, ?_, ?_, ?_, ?_⟩
  · intro path n es st; rfl
  · intro path n es rest st; rfl
  · intro path n re es st; rfl
  · intro path n re es rest st; rfl
  · intro path n d st; rfl
  · intro path n d rest st; rfl
  · intro path n d st; rfl
  · intro path n d rest st; rfl
  · intro path n re es st; rfl
  · intro path n re es rest st; rfl
  · intro path n es st; rfl
  · intro path n es rest st; rfl
  · intro path e st
    exact (walkEntry_sound path e st).1

/-- `Walk` only erases a root-level `SkipDir`; the collected state is that
of the root's `walkEntry`. -/
theorem runWalk_fst (root : String) (t : FSEntry) :
    (runWalk root t).1 = (walkEntry root t ⟨[], []⟩).1 := by
  unfold runWalk
  rcases h : walkEntry root t ⟨[], []⟩ with ⟨st, r⟩
  cases r <;> simp

/-- C6: a visited file entry with a named-pipe, socket, device, char-device
or symlink mode bit is skipped: the callback returns nil without launching
a goroutine, every candidate produced by any walk has none of those bits,
and every record in the output comes from such a non-special candidate. -/
theorem claim_C6 :
    (∀ (path n : String) (d : FileData) (st : WalkState),
        isSpecialMode d.mode = true →
        walkEntry path (.file n none d) st = (st, .ok)) ∧
    (∀ (root : String) (t : FSEntry) (c : Candidate),
        c ∈ (runWalk root t).1.cands → isSpecialMode c.data.mode = false) ∧
    (∀ (root : String) (t : FSEntry) (r : FileInfo),
        r ∈ (runPipeline root t).files →
        ∃ c, c ∈ (runWalk root t).1.cands ∧ isSpecialMode c.data.mode = false ∧
          processCandidate c = .ok r) := by
  have p2 : ∀ (root : String) (t : FSEntry) (c : Candidate),
      c ∈ (runWalk root t).1.cands → isSpecialMode c.data.mode = false := by
    intro root t c hc
    obtain ⟨-, new, hcands, hall⟩ := walkEntry_sound root t ⟨[], []⟩
    rw [runWalk_fst, hcands] at hc
    exact hall c (by simpa using hc)
  refine ⟨?_, p2, ?_⟩
  · intro path n d st hm
    simp [walkEntry, hm]
  · intro root t r hr
    obtain ⟨c, hc, hpc⟩ := mem_files_processed hr
    exact ⟨c, hc, p2 root t c hc, hpc⟩

/-- C6 witness: a named pipe is skipped; the sample scan's candidate is
non-special; the sample scan's record comes from a non-special candidate. -/
theorem claim_C6_witness :
    (isSpecialMode (FileMode.namedPipe) = true ∧
      walkEntry "/r" (.file "p" none ⟨.namedPipe, [], "t", true, true⟩) ⟨[], []⟩ =
        (⟨[], []⟩, .ok)) ∧
    ((⟨"/r/a", sampleData⟩ : Candidate) ∈ (runWalk "/r" sampleTree).1.cands ∧
      isSpecialMode (⟨"/r/a", sampleData⟩ : Candidate).data.mode = false) ∧
    ((⟨"a", "/r/", "2024-01-01T00:00:00Z",
        "e3b0c44298fc1c149afbf4c8996fb92427ae41e4649b934ca495991b7852b855"⟩ : FileInfo) ∈
        (runPipeline "/r" sampleTree).files ∧
      ∃ c, c ∈ (runWalk "/r" sampleTree).1.cands ∧
        isSpecialMode c.data.mode = false ∧
        processCandidate c =
          .ok ⟨"a", "/r/", "2024-01-01T00:00:00Z",
            "e3b0c44298fc1c149afbf4c8996fb92427ae41e4649b934ca495991b7852b855"⟩) := by
  refine ⟨⟨by decide, claim_C6.1 "/r" "p" ⟨.namedPipe, [], "t", true, true⟩ ⟨[], []⟩ (by decide)⟩,
    ⟨by decide, claim_C6.2.1 "/r" sampleTree ⟨"/r/a", sampleData⟩ (by decide)⟩,
    ⟨by decide, claim_C6.2.2 "/r" sampleTree _ (by decide)⟩⟩

/-- C4: `calculateSHA256` propagates the open-phase and read-phase errors
as distinct values — the `*os.PathError` op carried by the returned error
determines exactly which phase failed. -/
theorem claim_C4 (f : FileData) (e : HashError)
    (h : calculateSHA256 f = .error e) :
    (e.op = "open" ∨ e.op = "read") ∧
    (e.op = "open" ↔ f.openOk = false) ∧
    (e.op = "read" ↔ (f.openOk = true ∧ f.readOk = false)) := by
  unfold calculateSHA256 calculateSHA256Ev at h
  by_cases h1 : f.openOk <;> by_cases h2 : f.readOk <;>
    simp only [h1, h2, if_true, if_false, Bool.false_eq_true] at h ⊢
  · simp at h
  · have he : e = ⟨"read"⟩ := by
      cases e
      simpa using h.symm
    subst he
    simp [h1, h2]
  · have he : e = ⟨"open"⟩ := by
      cases e
      simpa using h.symm
    subst he
    simp [h1, h2]
  · have he : e = ⟨"open"⟩ := by
      cases e
      simpa using h.symm
    subst he
    simp [h1, h2]

/-- C4 witness: an unopenable file fails with the open-phase error. -/
theorem claim_C4_witness :
    calculateSHA256 sampleFailData = .error ⟨"open"⟩ ∧
    (((⟨"open"⟩ : HashError).op = "open" ∨ (⟨"open"⟩ : HashError).op = "read") ∧
      ((⟨"open"⟩ : HashError).op = "open" ↔ sampleFailData.openOk = false) ∧
      ((⟨"open"⟩ : HashError).op = "read" ↔
        (sampleFailData.openOk = true ∧ sampleFailData.readOk = false))) :=
  ⟨rfl, claim_C4 sampleFailData ⟨"open"⟩ rfl⟩

/-- C7: on every path of `calculateSHA256` — successful hash, open failure
and read failure — the file handle is closed exactly when it was
successfully opened, and it is opened exactly when `os.Open` succeeds. -/
theorem claim_C7 (f : FileData) :
    (calculateSHA256Ev f).2.1 = (calculateSHA256Ev f).2.2 ∧
    (calculateSHA256Ev f).2.1 = f.openOk := by
  by_cases h1 : f.openOk <;> by_cases h2 : f.readOk <;>
    simp [calculateSHA256Ev, h1, h2]

/-- C8: a run with one worker and a run with any worker count `n > 1` over
the same unchanged tree deliver the same multiset of outcomes, hence the
same set of FileRecords (ignoring order) and the same total record count. -/
theorem claim_C8 (root : String) (t : FSEntry) (n : Nat)
    (out1 outN : List (Except HashProcErr FileInfo))
    (_hn : 1 < n)
    (h1 : ParRun ((runWalk root t).1.cands) 1 out1)
    (hN : ParRun ((runWalk root t).1.cands) n outN) :
    (outcomeRecords outN : Multiset FileInfo) = (outcomeRecords out1 : Multiset FileInfo) ∧
    (outcomeRecords outN).length = (outcomeRecords out1).length := by
  have hperm : List.Perm outN out1 := (parRun_perm hN).trans (parRun_perm h1).symm
  have hrec : List.Perm (outcomeRecords outN) (outcomeRecords out1) := by
    unfold outcomeRecords
    exact hperm.filterMap _
  exact ⟨Multiset.coe_eq_coe.mpr hrec, hrec.length_eq⟩

/-- C8 witness: two unopenable files, one worker in order versus two
workers whose outcomes are collected in reversed order. -/
theorem claim_C8_witness :
    1 < 2 ∧
    ParRun ((runWalk "/r" sampleFailTree).1.cands) 1
      [processCandidate ⟨"/r/a", sampleFailData⟩,
       processCandidate ⟨"/r/b", sampleFailData⟩] ∧
    ParRun ((runWalk "/r" sampleFailTree).1.cands) 2
      [processCandidate ⟨"/r/b", sampleFailData⟩,
       processCandidate ⟨"/r/a", sampleFailData⟩] ∧
    ((outcomeRecords [processCandidate ⟨"/r/b", sampleFailData⟩,
        processCandidate ⟨"/r/a", sampleFailData⟩] : Multiset FileInfo) =
      (outcomeRecords [processCandidate ⟨"/r/a", sampleFailData⟩,
        processCandidate ⟨"/r/b", sampleFailData⟩] : Multiset FileInfo) ∧
     (outcomeRecords [processCandidate ⟨"/r/b", sampleFailData⟩,
        processCandidate ⟨"/r/a", sampleFailData⟩]).length =
      (outcomeRecords [processCandidate ⟨"/r/a", sampleFailData⟩,
        processCandidate ⟨"/r/b", sampleFailData⟩]).length) := by
  have hc : (runWalk "/r" sampleFailTree).1.cands =
      [⟨"/r/a", sampleFailData⟩, ⟨"/r/b", sampleFailData⟩] := by decide
  have h1 : ParRun ((runWalk "/r" sampleFailTree).1.cands) 1
      [processCandidate ⟨"/r/a", sampleFailData⟩,
       processCandidate ⟨"/r/b", sampleFailData⟩] := by
    rw [hc]
    refine ⟨[[⟨"/r/a", sampleFailData⟩, ⟨"/r/b", sampleFailData⟩]], rfl, ?_, ?_⟩
    · exact Dispatch.cons _ _ ([⟨"/r/b", sampleFailData⟩] : List Candidate) [] []
        (Dispatch.cons _ _ [] [] [] (Dispatch.nil _ (by simp)))
    · exact Dispatch.cons _ _ [processCandidate ⟨"/r/b", sampleFailData⟩] [] []
        (Dispatch.cons _ _ [] [] [] (Dispatch.nil _ (by simp)))
  have h2 : ParRun ((runWalk "/r" sampleFailTree).1.cands) 2
      [processCandidate ⟨"/r/b", sampleFailData⟩,
       processCandidate ⟨"/r/a", sampleFailData⟩] := by
    rw [hc]
    refine ⟨[[⟨"/r/a", sampleFailData⟩], [⟨"/r/b", sampleFailData⟩]], rfl, ?_, ?_⟩
    · exact Dispatch.cons _ _ [] [] ([[⟨"/r/b", sampleFailData⟩]] : List (List Candidate))
        (Dispatch.cons _ _ [] [[]] [] (Dispatch.nil _ (by simp)))
    · exact Dispatch.cons _ _ [] [[processCandidate ⟨"/r/a", sampleFailData⟩]] []
        (Dispatch.cons _ _ [] [] [[]] (Dispatch.nil _ (by simp)))
  exact ⟨by decide, h1, h2, claim_C8 "/r" sampleFailTree 2 _ _ (by decide) h1 h2⟩

/-- C9: a successfully hashed candidate's record has `Path` equal to the
directory part of `filepath.Split` on the full path — which keeps the
trailing separator — and `Name` equal to the separator-free remainder, the
two concatenating back to the full path. -/
theorem claim_C9 (c : Candidate) (r : FileInfo)
    (h : processCandidate c = .ok r) :
    r.Path = (filepathSplit c.path).1 ∧ r.Name = (filepathSplit c.path).2 ∧
    r.Path ++ r.Name = c.path ∧
    (r.Path = "" ∨ r.Path.data.getLast? = some '/') ∧
    (∀ ch ∈ r.Name.data, ch ≠ '/') := by
  have hsp := filepathSplit_spec c.path
  unfold processCandidate at h
  rcases hcalc : calculateSHA256 c.data with e | hash <;> rw [hcalc] at h
  · simp at h
  · have hr : r = ⟨(filepathSplit c.path).2, (filepathSplit c.path).1,
        c.data.modTime, hash⟩ := by
      simpa using h.symm
    subst hr
    exact ⟨rfl, rfl, hsp.1, hsp.2.1, hsp.2.2⟩

/-- C9 witness: splitting `/a/b/c.txt` keeps the trailing separator. -/
theorem claim_C9_witness :
    processCandidate ⟨"/a/b/c.txt", sampleData⟩ =
      .ok ⟨"c.txt", "/a/b/", "2024-01-01T00:00:00Z",
        "e3b0c44298fc1c149afbf4c8996fb92427ae41e4649b934ca495991b7852b855"⟩ ∧
    ((⟨"c.txt", "/a/b/", "2024-01-01T00:00:00Z",
        "e3b0c44298fc1c149afbf4c8996fb92427ae41e4649b934ca495991b7852b855"⟩ :
        FileInfo).Path = (filepathSplit "/a/b/c.txt").1 ∧
      (⟨"c.txt", "/a/b/", "2024-01-01T00:00:00Z",
        "e3b0c44298fc1c149afbf4c8996fb92427ae41e4649b934ca495991b7852b855"⟩ :
        FileInfo).Name = (filepathSplit "/a/b/c.txt").2 ∧
      (⟨"c.txt", "/a/b/", "2024-01-01T00:00:00Z",
        "e3b0c44298fc1c149afbf4c8996fb92427ae41e4649b934ca495991b7852b855"⟩ :
        FileInfo).Path ++
        (⟨"c.txt", "/a/b/", "2024-01-01T00:00:00Z",
          "e3b0c44298fc1c149afbf4c8996fb92427ae41e4649b934ca495991b7852b855"⟩ :
          FileInfo).Name = "/a/b/c.txt" ∧
      ((⟨"c.txt", "/a/b/", "2024-01-01T00:00:00Z",
          "e3b0c44298fc1c149afbf4c8996fb92427ae41e4649b934ca495991b7852b855"⟩ :
          FileInfo).Path = "" ∨
        (⟨"c.txt", "/a/b/", "2024-01-01T00:00:00Z",
          "e3b0c44298fc1c149afbf4c8996fb92427ae41e4649b934ca495991b7852b855"⟩ :
          FileInfo).Path.data.getLast? = some '/') ∧
      (∀ ch ∈ (⟨"c.txt", "/a/b/", "2024-01-01T00:00:00Z",
          "e3b0c44298fc1c149afbf4c8996fb92427ae41e4649b934ca495991b7852b855"⟩ :
          FileInfo).Name.data, ch ≠ '/')) := by
  have h : processCandidate ⟨"/a/b/c.txt", sampleData⟩ =
      .ok ⟨"c.txt", "/a/b/", "2024-01-01T00:00:00Z",
        "e3b0c44298fc1c149afbf4c8996fb92427ae41e4649b934ca495991b7852b855"⟩ := by
    rfl
  exact ⟨h, claim_C9 _ _ h⟩

/-- C10: the digest string of every successful hash is the lowercase
hexadecimal encoding of a 32-byte SHA-256 digest, hence 64 characters from
the hex alphabet, and every record's `SHA256Hash` field carries such a
string. -/
theorem claim_C10 :
    (∀ msg : List Nat,
        (hexEncodeString (sha256Bytes msg)).length = 64 ∧
        ∀ ch ∈ (hexEncodeString (sha256Bytes msg)).data, ch ∈ hexChars) ∧
    (∀ (root : String) (t : FSEntry) (r : FileInfo),
        r ∈ (runPipeline root t).files →
        r.SHA256Hash.length = 64 ∧
        ∀ ch ∈ r.SHA256Hash.data, ch ∈ hexChars) := by
  refine ⟨hexEncode_sha256_spec, ?_⟩
  intro root t r hr
  obtain ⟨c, -, hpc⟩ := mem_files_processed hr
  have hhash : r.SHA256Hash = hexEncodeString (sha256Bytes c.data.content) := by
    unfold processCandidate at hpc
    rcases hcalc : calculateSHA256 c.data with e | hash <;> rw [hcalc] at hpc
    · simp at hpc
    · have hr2 : r = ⟨(filepathSplit c.path).2, (filepathSplit c.path).1,
          c.data.modTime, hash⟩ := by
        simpa using hpc.symm
      subst hr2
      exact calculateSHA256_ok hcalc
  rw [hhash]
  exact hexEncode_sha256_spec c.data.content

/-- C10 witness: the sample record's digest string. -/
theorem claim_C10_witness :
    (⟨"a", "/r/", "2024-01-01T00:00:00Z",
        "e3b0c44298fc1c149afbf4c8996fb92427ae41e4649b934ca495991b7852b855"⟩ : FileInfo) ∈
      (runPipeline "/r" sampleTree).files ∧
    ((⟨"a", "/r/", "2024-01-01T00:00:00Z",
        "e3b0c44298fc1c149afbf4c8996fb92427ae41e4649b934ca495991b7852b855"⟩ :
        FileInfo).SHA256Hash.length = 64 ∧
      ∀ ch ∈ (⟨"a", "/r/", "2024-01-01T00:00:00Z",
          "e3b0c44298fc1c149afbf4c8996fb92427ae41e4649b934ca495991b7852b855"⟩ :
          FileInfo).SHA256Hash.data, ch ∈ hexChars) :=
  ⟨by decide, claim_C10.2 "/r" sampleTree _ (by decide)⟩

end FileInventory
